import Mathlib

/-! # liblp utility layer (`liblp/utility.h`)

A shallow embedding of the helpers declared and defined in `liblp/utility.h`
and the properties stated about them.

Machine integers are natural numbers together with an explicit width `w`; a
value of the unsigned type `T` of width `w` is a natural number below `2 ^ w`,
and every conversion to `T` is written as `% 2 ^ w`.
-/

namespace android.fs_mgr

/-! ## Machine integers -/

/-- The value of `std::numeric_limits<T>::max()` for the unsigned type of width `w`. -/
def numeric_limits_max (w : Nat) : Nat := 2 ^ w - 1

/-- The width of the type in which C++ evaluates a binary operation between a
`T` of width `w` and a `uint32_t`: an operand narrower than `int` is promoted
to `int` and then converted to `unsigned int`; a wider one wins. -/
def commonWidth (w : Nat) : Nat := if w < 32 then 32 else w

/-- Convert a value to the unsigned type of width `w` (reduction modulo `2 ^ w`). -/
def truncate (w : Nat) (x : Nat) : Nat := x % 2 ^ w

/-- Unsigned subtraction `a - b` in a type of width `n`, wrapping modulo `2 ^ n`. -/
def wrappingSub (n : Nat) (a b : Nat) : Nat := (a % 2 ^ n + 2 ^ n - b % 2 ^ n) % 2 ^ n

/-! ## The output location `*out` -/

/-- The memory cell a `T* out` argument points to: its current value and the
log of every value stored to it, oldest first. -/
structure OutCell where
  val : Nat
  writes : List Nat
  deriving DecidableEq, Repr

/-- The assignment `*out = v`. -/
def OutCell.store (c : OutCell) (v : Nat) : OutCell :=
  { val := v, writes := c.writes ++ [v] }

/-! ## `AlignTo` -/

/-- The function template `AlignTo<T>(base, alignment, out)` for the unsigned
type `T` of width `w`: the returned pair is the `bool` result and the state of
`*out` after the call.

```
if (!alignment) { *out = base; return true; }
T remainder = base % alignment;
if (remainder == 0) { *out = base; return true; }
T to_add = alignment - remainder;
if (to_add > std::numeric_limits<T>::max() - base) { return false; }
*out = base + to_add;
return true;
```
-/
def AlignTo (w : Nat) (base alignment : Nat) (out : OutCell) : Bool × OutCell :=
  if alignment = 0 then
    (true, out.store base)
  else
    let remainder := truncate w (truncate (commonWidth w) base % alignment)
    if remainder = 0 then
      (true, out.store base)
    else
      let to_add := truncate w (wrappingSub (commonWidth w) alignment remainder)
      if to_add > numeric_limits_max w - base then
        (false, out)
      else
        (true, out.store (truncate w (base + to_add)))

/-- The value the specification assigns to `align_up(base, alignment)` when it
succeeds (§4.1): `base` when `alignment == 0` or `base % alignment == 0`,
otherwise `base + (alignment - base % alignment)`, over unbounded naturals. -/
def alignedValue (base alignment : Nat) : Nat :=
  if alignment = 0 then base
  else if base % alignment = 0 then base
  else base + (alignment - base % alignment)

/-! ## Layout arithmetic

The header only declares the offset and size functions; their bodies and the
types of `liblp/liblp.h` are not part of the sources at hand.
-/

/-- The failure conditions named by the specification (§7). -/
inductive LayoutError where
  | ArithmeticOverflow
  | InvalidSlotIndex
  | InvalidGeometry
  | RegionTooSmall
  deriving DecidableEq, Repr

deriving instance DecidableEq for Except

/-- The largest value of the unsigned type the sizes and offsets live in
(`uint64_t`, the declared result type of `GetTotalMetadataSize`). -/
def UINT64_MAX : Nat := 2 ^ 64 - 1

/-- Modelled from the spec: the constant `GEOMETRY_BLOCK_SIZE` of §4.2 (4096 in
the reference implementation); the header that defines it is absent. -/
def GEOMETRY_BLOCK_SIZE : Nat := 4096

/-- Modelled from the spec: the checked addition of §9, a sum that reports an
overflow instead of wrapping. -/
def checked_add (a b : Nat) : Except LayoutError Nat :=
  if a + b ≤ UINT64_MAX then .ok (a + b) else .error .ArithmeticOverflow

/-- Modelled from the spec: the checked multiplication of §9, a product that
reports an overflow instead of wrapping. -/
def checked_mul (a b : Nat) : Except LayoutError Nat :=
  if a * b ≤ UINT64_MAX then .ok (a * b) else .error .ArithmeticOverflow

/-- Modelled from the spec: the checked subtraction used for offsets measured
back from the end of the region; a negative difference is reported. -/
def checked_sub (a b : Nat) : Except LayoutError Nat :=
  if b ≤ a then .ok (a - b) else .error .ArithmeticOverflow

/-- Modelled from the spec: the record `LpMetadataGeometry` of `liblp/liblp.h`,
reduced to the two fields §3 gives it for layout purposes. -/
structure LpMetadataGeometry where
  metadata_max_size : Nat
  metadata_slot_count : Nat
  deriving DecidableEq, Repr

/-- Modelled from the spec: the structural check of a geometry record (§3, §7);
a valid record yields the byte length of one slot array. -/
def LpMetadataGeometry.validate (geometry : LpMetadataGeometry) : Except LayoutError Nat :=
  if geometry.metadata_max_size = 0 ∨ geometry.metadata_slot_count = 0 then
    .error .InvalidGeometry
  else if geometry.metadata_slot_count * geometry.metadata_max_size ≤ UINT64_MAX then
    .ok (geometry.metadata_slot_count * geometry.metadata_max_size)
  else
    .error .InvalidGeometry

/-- Modelled from the spec: the body of `GetTotalMetadataSize`, declared in the
header without a definition; §4.4 gives
`2 * GEOMETRY_BLOCK_SIZE + 2 * metadata_max_size * metadata_slot_count`, every
multiplication and addition checked. -/
def GetTotalMetadataSize (metadata_max_size max_slots : Nat) : Except LayoutError Nat := do
  let geometry_bytes ← checked_mul 2 GEOMETRY_BLOCK_SIZE
  let doubled ← checked_mul 2 metadata_max_size
  let slot_bytes ← checked_mul doubled max_slots
  checked_add geometry_bytes slot_bytes

/-- Modelled from the spec: the body of `GetPrimaryGeometryOffset`, declared in
the header without a definition; §4.2 gives `primary_geometry_offset() = 0`. -/
def GetPrimaryGeometryOffset : Nat := 0

/-- Modelled from the spec: the body of `GetBackupGeometryOffset`, declared in
the header without a definition; §4.2 gives
`backup_geometry_offset(total_reserved_size) = total_reserved_size - GEOMETRY_BLOCK_SIZE`.
The reserved size is an argument here as in the specification; the declaration
in the header has no parameter. -/
def GetBackupGeometryOffset (total_reserved_size : Nat) : Except LayoutError Nat :=
  checked_sub total_reserved_size GEOMETRY_BLOCK_SIZE

/-- Modelled from the spec: the body of `GetPrimaryMetadataOffset`, declared in
the header without a definition; §4.3 places slot `i` at
`GEOMETRY_BLOCK_SIZE + i * metadata_max_size`. -/
def GetPrimaryMetadataOffset (geometry : LpMetadataGeometry) (slot_number : Nat) :
    Except LayoutError Nat := do
  let _ ← geometry.validate
  if geometry.metadata_slot_count ≤ slot_number then
    throw .InvalidSlotIndex
  let within ← checked_mul slot_number geometry.metadata_max_size
  checked_add GEOMETRY_BLOCK_SIZE within

/-- Modelled from the spec: the body of `GetBackupMetadataOffset`, declared in
the header without a definition; §4.3 ends the backup slots at the backup
geometry, starts them `metadata_slot_count * metadata_max_size` bytes earlier
and places slot `i` at that start plus `i * metadata_max_size`. -/
def GetBackupMetadataOffset (geometry : LpMetadataGeometry) (total_reserved_size : Nat)
    (slot_number : Nat) : Except LayoutError Nat := do
  let slot_array_bytes ← geometry.validate
  if geometry.metadata_slot_count ≤ slot_number then
    throw .InvalidSlotIndex
  let backup_slots_end ← GetBackupGeometryOffset total_reserved_size
  let backup_slots_start ← checked_sub backup_slots_end slot_array_bytes
  let within ← checked_mul slot_number geometry.metadata_max_size
  checked_add backup_slots_start within

/-- A half-open range of bytes `[start, start + size)` of the reserved region. -/
structure ByteRange where
  start : Nat
  size : Nat
  deriving DecidableEq, Repr

/-- The first byte after the range. -/
def ByteRange.stop (r : ByteRange) : Nat := r.start + r.size

/-- The range `a` ends no later than `b` begins. -/
def ByteRange.before (a b : ByteRange) : Prop := a.stop ≤ b.start

/-- The ranges `a` and `b` have no byte in common. -/
def ByteRange.disjoint (a b : ByteRange) : Prop :=
  ∀ x, ¬ ((a.start ≤ x ∧ x < a.stop) ∧ (b.start ≤ x ∧ x < b.stop))

/-- The four regions of the reserved area as the offset functions place them. -/
structure MetadataRegions where
  primary_geometry : ByteRange
  primary_slots : ByteRange
  backup_slots : ByteRange
  backup_geometry : ByteRange
  deriving DecidableEq, Repr

/-- The four regions for a geometry and a reserved size: each starts at the
offset its function returns (slot arrays at their slot 0) and has the length
§4.2 and §4.3 give it. -/
def metadataRegions (geometry : LpMetadataGeometry) (total_reserved_size : Nat) :
    Except LayoutError MetadataRegions := do
  let slot_array_bytes ← geometry.validate
  let primary_slots ← GetPrimaryMetadataOffset geometry 0
  let backup_slots ← GetBackupMetadataOffset geometry total_reserved_size 0
  let backup_geometry ← GetBackupGeometryOffset total_reserved_size
  pure { primary_geometry := ⟨GetPrimaryGeometryOffset, GEOMETRY_BLOCK_SIZE⟩
         primary_slots := ⟨primary_slots, slot_array_bytes⟩
         backup_slots := ⟨backup_slots, slot_array_bytes⟩
         backup_geometry := ⟨backup_geometry, GEOMETRY_BLOCK_SIZE⟩ }

/-! ## Header downgrade -/

/-- Modelled from the spec: the header/flags record of §3: a version tag, a set
of feature flags (one bit each) and the extension fields added after 1.0. -/
structure LpMetadataHeader where
  major_version : Nat
  minor_version : Nat
  flags : Nat
  extension : List Nat
  deriving DecidableEq, Repr

/-- Modelled from the spec: a partition entry of the metadata, reduced to its
name and its attribute bits. -/
structure LpMetadataPartition where
  name : String
  attributes : Nat
  deriving DecidableEq, Repr

/-- Modelled from the spec: the in-memory metadata `LpMetadata` the downgrade
works on, made of the geometry, the header and the partition entries. -/
structure LpMetadata where
  geometry : LpMetadataGeometry
  header : LpMetadataHeader
  partitions : List LpMetadataPartition
  deriving DecidableEq, Repr

/-- The bits version 1.0 defines: `flags` among the header flags and
`attributes` among the partition attributes. Their values come from
`liblp/metadata_format.h`, which is absent, so they are parameters. -/
structure V0Masks where
  flags : Nat
  attributes : Nat
  deriving DecidableEq, Repr

/-- Modelled from the spec: the body of `SetMetadataHeaderV0`, declared in the
header without a definition. §4.5 rewrites the version tag to 1.0, clears every
flag bit 1.0 does not define and zeroes every extension field; the comment on
the declaration adds that incompatible attributes are cleared too. -/
def SetMetadataHeaderV0 (masks : V0Masks) (metadata : LpMetadata) : LpMetadata :=
  { metadata with
    header :=
      { major_version := 1
        minor_version := 0
        flags := metadata.header.flags &&& masks.flags
        extension := metadata.header.extension.map (fun _ => 0) }
    partitions :=
      metadata.partitions.map
        (fun partition => { partition with attributes := partition.attributes &&& masks.attributes }) }

/-! ## Properties of `AlignTo` -/



theorem truncate_of_lt {w x : Nat} (h : x < 2 ^ w) : truncate w x = x :=
  Nat.mod_eq_of_lt h

theorem wrappingSub_of_le {n a b : Nat} (ha : a < 2 ^ n) (hba : b ≤ a) :
    wrappingSub n a b = a - b := by
  have hb : b < 2 ^ n := Nat.lt_of_le_of_lt hba ha
  unfold wrappingSub
  rw [Nat.mod_eq_of_lt ha, Nat.mod_eq_of_lt hb]
  have h1 : a + 2 ^ n - b = (a - b) + 2 ^ n := by omega
  rw [h1, Nat.add_mod_right]
  exact Nat.mod_eq_of_lt (by omega)

theorem commonWidth_ge (w : Nat) : w ≤ commonWidth w ∧ 32 ≤ commonWidth w := by
  unfold commonWidth
  split <;> omega

/-- When the alignment fits the type `T` (always so for a `T` of 32 bits or
more) no conversion inside `AlignTo` loses information: the call computes on
the mathematical values. -/
theorem AlignTo_exact (w base alignment : Nat) (out : OutCell)
    (hb : base < 2 ^ w) (ha : alignment < 2 ^ 32) (haw : alignment ≤ 2 ^ w) :
    AlignTo w base alignment out =
      if alignment = 0 then (true, out.store base)
      else if base % alignment = 0 then (true, out.store base)
      else if base + (alignment - base % alignment) > 2 ^ w - 1 then (false, out)
      else (true, out.store (base + (alignment - base % alignment))) := by
  have hwc : 2 ^ w ≤ 2 ^ commonWidth w :=
    Nat.pow_le_pow_right (by decide) (commonWidth_ge w).1
  have h32 : 2 ^ 32 ≤ 2 ^ commonWidth w :=
    Nat.pow_le_pow_right (by decide) (commonWidth_ge w).2
  unfold AlignTo
  by_cases h0 : alignment = 0
  · simp [h0]
  · have hpos : 0 < alignment := Nat.pos_of_ne_zero h0
    have hr : base % alignment < alignment := Nat.mod_lt _ hpos
    have e1 : truncate w (truncate (commonWidth w) base % alignment) = base % alignment := by
      rw [truncate_of_lt (Nat.lt_of_lt_of_le hb hwc), truncate_of_lt (by omega)]
    simp only [if_neg h0, e1]
    by_cases hz : base % alignment = 0
    · simp [hz]
    · have e2 : truncate w (wrappingSub (commonWidth w) alignment (base % alignment))
          = alignment - base % alignment := by
        rw [wrappingSub_of_le (Nat.lt_of_lt_of_le ha h32) (Nat.le_of_lt hr),
          truncate_of_lt (by omega)]
      simp only [if_neg hz, e2, numeric_limits_max]
      by_cases hov : base + (alignment - base % alignment) > 2 ^ w - 1
      · have : alignment - base % alignment > 2 ^ w - 1 - base := by omega
        simp [hov, this]
      · have hn : ¬ (alignment - base % alignment > 2 ^ w - 1 - base) := by omega
        have hlt : base + (alignment - base % alignment) < 2 ^ w := by omega
        simp only [if_neg hov, if_neg hn, truncate_of_lt hlt]

/-- A 32-bit alignment fits every type of 32 bits or more. -/
theorem alignment_fits {w alignment : Nat} (hw : w = 32 ∨ w = 64) (ha : alignment < 2 ^ 32) :
    alignment ≤ 2 ^ w := by
  rcases hw with rfl | rfl
  · omega
  · have : (2 : Nat) ^ 32 ≤ 2 ^ 64 := by decide
    omega

/-- The padded value is a multiple of the alignment. -/
theorem dvd_add_pad (base alignment : Nat) (h0 : alignment ≠ 0) :
    alignment ∣ base + (alignment - base % alignment) := by
  have hr : base % alignment < alignment := Nat.mod_lt _ (Nat.pos_of_ne_zero h0)
  refine ⟨base / alignment + 1, ?_⟩
  have hd := Nat.div_add_mod base alignment
  rw [Nat.mul_add, Nat.mul_one]
  omega

/-- C1: for the 32-bit and 64-bit instantiations, a zero alignment or a base
that is already a multiple of the alignment yields success with `*out = base`;
in every other case a successful call stores
`base + (alignment - base % alignment)`, where neither the subtraction nor the
addition wraps. -/
theorem AlignTo_contract (w base alignment : Nat) (out : OutCell)
    (hw : w = 32 ∨ w = 64) (hb : base < 2 ^ w) (ha : alignment < 2 ^ 32) :
    (alignment = 0 → AlignTo w base alignment out = (true, out.store base)) ∧
    (alignment ≠ 0 → base % alignment = 0 →
      AlignTo w base alignment out = (true, out.store base)) ∧
    (alignment ≠ 0 → base % alignment ≠ 0 → (AlignTo w base alignment out).1 = true →
      AlignTo w base alignment out
          = (true, out.store (base + (alignment - base % alignment))) ∧
        base % alignment < alignment ∧
        base + (alignment - base % alignment) ≤ numeric_limits_max w) := by
  have hx := AlignTo_exact w base alignment out hb ha (alignment_fits hw ha)
  refine ⟨fun h0 => by rw [hx, if_pos h0], fun h0 hz => by rw [hx, if_neg h0, if_pos hz], ?_⟩
  intro h0 hz hok
  rw [hx, if_neg h0, if_neg hz] at hok ⊢
  by_cases hov : base + (alignment - base % alignment) > 2 ^ w - 1
  · rw [if_pos hov] at hok
    exact absurd hok Bool.false_ne_true
  · rw [if_neg hov]
    refine ⟨rfl, Nat.mod_lt _ (Nat.pos_of_ne_zero h0), ?_⟩
    unfold numeric_limits_max
    omega

theorem AlignTo_contract_witness :
    AlignTo 64 4097 4096 ⟨0, []⟩ = (true, OutCell.store ⟨0, []⟩ (4097 + (4096 - 4097 % 4096))) ∧
      4097 % 4096 < 4096 ∧ 4097 + (4096 - 4097 % 4096) ≤ numeric_limits_max 64 :=
  (AlignTo_contract 64 4097 4096 ⟨0, []⟩ (Or.inr rfl) (by decide) (by decide)).2.2
    (by decide) (by decide) (by decide)

/-- C2: for the 32-bit and 64-bit instantiations, a successful call yields a
result that is at least `base`, is a multiple of `alignment` (equal to `base`
when `alignment == 0`) and, for a nonzero alignment, exceeds `base` by less
than `alignment`; the alignment is an arbitrary 32-bit value, not a power of
two. -/
theorem AlignTo_result_aligned (w base alignment : Nat) (out : OutCell)
    (hw : w = 32 ∨ w = 64) (hb : base < 2 ^ w) (ha : alignment < 2 ^ 32)
    (hok : (AlignTo w base alignment out).1 = true) :
    base ≤ (AlignTo w base alignment out).2.val ∧
    (alignment ≠ 0 → alignment ∣ (AlignTo w base alignment out).2.val) ∧
    (alignment = 0 → (AlignTo w base alignment out).2.val = base) ∧
    (alignment ≠ 0 → (AlignTo w base alignment out).2.val - base < alignment) := by
  have hx := AlignTo_exact w base alignment out hb ha (alignment_fits hw ha)
  rw [hx] at hok ⊢
  by_cases h0 : alignment = 0
  · simp [h0, OutCell.store]
  · have hpos : 0 < alignment := Nat.pos_of_ne_zero h0
    by_cases hz : base % alignment = 0
    · simp [h0, hz, OutCell.store, Nat.dvd_of_mod_eq_zero hz, hpos]
    · have hr : base % alignment < alignment := Nat.mod_lt _ hpos
      by_cases hov : base + (alignment - base % alignment) > 2 ^ w - 1
      · rw [if_neg h0, if_neg hz, if_pos hov] at hok
        exact absurd hok Bool.false_ne_true
      · simp only [if_neg h0, if_neg hz, if_neg hov, OutCell.store]
        refine ⟨by omega, fun _ => dvd_add_pad base alignment h0, fun h => absurd h h0,
          fun _ => ?_⟩
        have hpr : 0 < base % alignment := Nat.pos_of_ne_zero hz
        omega

theorem AlignTo_result_aligned_witness :
    10 ≤ (AlignTo 32 10 6 ⟨0, []⟩).2.val ∧
    (6 ≠ 0 → 6 ∣ (AlignTo 32 10 6 ⟨0, []⟩).2.val) ∧
    (6 = 0 → (AlignTo 32 10 6 ⟨0, []⟩).2.val = 10) ∧
    (6 ≠ 0 → (AlignTo 32 10 6 ⟨0, []⟩).2.val - 10 < 6) :=
  AlignTo_result_aligned 32 10 6 ⟨0, []⟩ (Or.inl rfl) (by decide) (by decide) (by decide)

/-- C3: for the 32-bit and 64-bit instantiations, `AlignTo` returns false
exactly when the alignment is nonzero, the base is not a multiple of it and the
unbounded value `base + (alignment - base % alignment)` exceeds the maximum of
`T`; the conversions of `remainder` and `to_add`, the subtractions and, when it
is reached (nonzero remainder, check passed), the addition all produce their
mathematical values. -/
theorem AlignTo_false_iff (w base alignment : Nat) (out : OutCell)
    (hw : w = 32 ∨ w = 64) (hb : base < 2 ^ w) (ha : alignment < 2 ^ 32) :
    ((AlignTo w base alignment out).1 = false ↔
      (alignment ≠ 0 ∧ base % alignment ≠ 0 ∧
        base + (alignment - base % alignment) > numeric_limits_max w)) ∧
    (alignment ≠ 0 →
      truncate w (truncate (commonWidth w) base % alignment) = base % alignment ∧
      base % alignment < alignment ∧
      truncate w (wrappingSub (commonWidth w) alignment (base % alignment))
        = alignment - base % alignment ∧
      base ≤ numeric_limits_max w ∧
      (base % alignment ≠ 0 → (AlignTo w base alignment out).1 = true →
        truncate w (base + (alignment - base % alignment))
          = base + (alignment - base % alignment))) := by
  have haw := alignment_fits hw ha
  have hx := AlignTo_exact w base alignment out hb ha haw
  have hwc : 2 ^ w ≤ 2 ^ commonWidth w :=
    Nat.pow_le_pow_right (by decide) (commonWidth_ge w).1
  have h32 : 2 ^ 32 ≤ 2 ^ commonWidth w :=
    Nat.pow_le_pow_right (by decide) (commonWidth_ge w).2
  refine ⟨?_, ?_⟩
  · rw [hx]
    unfold numeric_limits_max
    by_cases h0 : alignment = 0
    · simp [h0]
    · by_cases hz : base % alignment = 0
      · simp [h0, hz]
      · by_cases hov : base + (alignment - base % alignment) > 2 ^ w - 1
        · simp [h0, hz, hov]
        · simp [h0, hz, hov]
  · intro h0
    have hr : base % alignment < alignment := Nat.mod_lt _ (Nat.pos_of_ne_zero h0)
    refine ⟨?_, hr, ?_, ?_, ?_⟩
    · rw [truncate_of_lt (Nat.lt_of_lt_of_le hb hwc), truncate_of_lt (by omega)]
    · by_cases hz : base % alignment = 0
      · rw [hz, wrappingSub_of_le (Nat.lt_of_lt_of_le ha h32) (Nat.zero_le _)]
        rcases hw with rfl | rfl
        · exact truncate_of_lt (by omega)
        · have : (2 : Nat) ^ 32 ≤ 2 ^ 64 := by decide
          exact truncate_of_lt (by omega)
      · rw [wrappingSub_of_le (Nat.lt_of_lt_of_le ha h32) (Nat.le_of_lt hr),
          truncate_of_lt (by omega)]
    · unfold numeric_limits_max
      omega
    · intro hz hok
      rw [hx, if_neg h0, if_neg hz] at hok
      by_cases hov : base + (alignment - base % alignment) > 2 ^ w - 1
      · rw [if_pos hov] at hok
        exact absurd hok Bool.false_ne_true
      · exact truncate_of_lt (by omega)

theorem AlignTo_false_iff_witness :
    (AlignTo 32 4294967295 4096 ⟨7, [7]⟩).1 = false ↔
      ((4096 : Nat) ≠ 0 ∧ 4294967295 % 4096 ≠ 0 ∧
        4294967295 + (4096 - 4294967295 % 4096) > numeric_limits_max 32) :=
  (AlignTo_false_iff 32 4294967295 4096 ⟨7, [7]⟩ (Or.inl rfl) (by decide) (by decide)).1

/-- C4: with `MAX_VALUE` the maximum of the 32-bit and of the 64-bit unsigned
type, `AlignTo(MAX_VALUE, 2)` returns false and `AlignTo(MAX_VALUE, 0)` returns
true with `*out = MAX_VALUE`. -/
theorem AlignTo_max_value :
    (∀ out, AlignTo 32 (numeric_limits_max 32) 2 out = (false, out)) ∧
    (∀ out, AlignTo 64 (numeric_limits_max 64) 2 out = (false, out)) ∧
    (∀ out, AlignTo 32 (numeric_limits_max 32) 0 out
      = (true, out.store (numeric_limits_max 32))) ∧
    (∀ out, AlignTo 64 (numeric_limits_max 64) 0 out
      = (true, out.store (numeric_limits_max 64))) :=
  ⟨fun _ => rfl, fun _ => rfl, fun _ => rfl, fun _ => rfl⟩

/-- C5: the 8-bit and 16-bit instantiations accept inputs on which the call
reports success with a value that is not a multiple of the alignment: the
difference `alignment - remainder` is cut to the width of `T` before it is
checked. `AlignTo<uint8_t>(1, 257)` and `AlignTo<uint16_t>(1, 65537)` store 1,
and `AlignTo<uint8_t>(1, 300)` stores 44. -/
theorem AlignTo_narrow_misaligned :
    (∀ out, AlignTo 8 1 257 out = (true, out.store 1)) ∧ ¬ 257 ∣ 1 ∧
    (∀ out, AlignTo 16 1 65537 out = (true, out.store 1)) ∧ ¬ 65537 ∣ 1 ∧
    (∀ out, AlignTo 8 1 300 out = (true, out.store 44)) ∧ ¬ 300 ∣ 44 ∧
    1 < 2 ^ 8 ∧ 257 < 2 ^ 32 ∧ 65537 < 2 ^ 32 ∧ 300 < 2 ^ 32 :=
  ⟨fun _ => rfl, by decide, fun _ => rfl, by decide, fun _ => rfl, by decide,
    by decide, by decide, by decide, by decide⟩

/-- Under the conditions of `AlignTo_exact` the value a successful call stores
is the aligned value of the specification. -/
theorem AlignTo_exact_aligned (w base alignment : Nat) (out : OutCell)
    (hb : base < 2 ^ w) (ha : alignment < 2 ^ 32) (haw : alignment ≤ 2 ^ w)
    (hok : (AlignTo w base alignment out).1 = true) :
    AlignTo w base alignment out = (true, out.store (alignedValue base alignment)) := by
  rw [AlignTo_exact w base alignment out hb ha haw] at hok ⊢
  unfold alignedValue
  by_cases h0 : alignment = 0
  · simp [h0]
  · by_cases hz : base % alignment = 0
    · simp [h0, hz]
    · by_cases hov : base + (alignment - base % alignment) > 2 ^ w - 1
      · rw [if_neg h0, if_neg hz, if_pos hov] at hok
        exact absurd hok Bool.false_ne_true
      · simp only [if_neg h0, if_neg hz, if_neg hov]

/-- The part of the output contract that holds for every width: with `*out`
as explicit state, a call that returns false leaves the
cell as it was (value and write log), and a call that returns true performs
exactly one store; the stored value lies between `base` and the maximum of `T`
(it is not a wrapped sum), and it is the aligned value whenever the alignment
fits `T`, which covers every call of the 32-bit and 64-bit instantiations. -/
theorem AlignTo_frame (w base alignment : Nat) (out : OutCell) :
    ((AlignTo w base alignment out).1 = false → (AlignTo w base alignment out).2 = out) ∧
    ((AlignTo w base alignment out).1 = true →
      ∃ v, (AlignTo w base alignment out).2 = out.store v ∧
        (AlignTo w base alignment out).2.val = v ∧
        (AlignTo w base alignment out).2.writes = out.writes ++ [v] ∧
        (base < 2 ^ w → base ≤ v ∧ v ≤ numeric_limits_max w) ∧
        (base < 2 ^ w → alignment < 2 ^ 32 → alignment ≤ 2 ^ w →
          v = alignedValue base alignment)) := by
  refine ⟨?_, ?_⟩
  · unfold AlignTo
    by_cases h0 : alignment = 0
    · simp [h0]
    · simp only [if_neg h0]
      split
      · simp
      · split
        · simp
        · simp
  · intro hok
    have hstore : ∀ v, (out.store v).val = v ∧ (out.store v).writes = out.writes ++ [v] :=
      fun v => ⟨rfl, rfl⟩
    have key : ∃ v, (AlignTo w base alignment out).2 = out.store v ∧
        (base < 2 ^ w → base ≤ v ∧ v ≤ numeric_limits_max w) := by
      revert hok
      unfold AlignTo numeric_limits_max
      by_cases h0 : alignment = 0
      · intro _
        refine ⟨base, by simp [h0], fun hb => ⟨Nat.le_refl _, by omega⟩⟩
      · simp only [if_neg h0]
        split
        · intro _
          exact ⟨base, rfl, fun hb => ⟨Nat.le_refl _, by omega⟩⟩
        · split
          · intro hok
            exact absurd hok Bool.false_ne_true
          · rename_i hle
            intro _
            refine ⟨_, rfl, fun hb => ?_⟩
            have hlt : base + truncate w (wrappingSub (commonWidth w) alignment
                (truncate w (truncate (commonWidth w) base % alignment))) < 2 ^ w := by
              omega
            rw [truncate_of_lt hlt]
            omega
    obtain ⟨v, hv, hrange⟩ := key
    refine ⟨v, hv, ?_, ?_, hrange, ?_⟩
    · rw [hv]
      exact (hstore v).1
    · rw [hv]
      exact (hstore v).2
    · intro hb ha haw
      have h := AlignTo_exact_aligned w base alignment out hb ha haw hok
      rw [h] at hv
      have hval := congrArg OutCell.val hv
      simpa [OutCell.store] using hval.symm

theorem AlignTo_frame_witness :
    ((AlignTo 64 18446744073709551615 512 ⟨3, [3]⟩).2 = ⟨3, [3]⟩) ∧
    (∃ v, (AlignTo 64 1000 512 ⟨3, [3]⟩).2 = OutCell.store ⟨3, [3]⟩ v ∧
        (AlignTo 64 1000 512 ⟨3, [3]⟩).2.val = v ∧
        (AlignTo 64 1000 512 ⟨3, [3]⟩).2.writes = [3] ++ [v] ∧
        (1000 < 2 ^ 64 → 1000 ≤ v ∧ v ≤ numeric_limits_max 64) ∧
        (1000 < 2 ^ 64 → 512 < 2 ^ 32 → 512 ≤ 2 ^ 64 → v = alignedValue 1000 512)) :=
  ⟨(AlignTo_frame 64 18446744073709551615 512 ⟨3, [3]⟩).1 (by decide),
    (AlignTo_frame 64 1000 512 ⟨3, [3]⟩).2 (by decide)⟩

/-- C10: the frame half holds, the value half does not: `AlignTo<uint8_t>(1,
300)` returns true and performs one store, but the value stored is 44, while
the aligned value is 300, which is not representable in 8 bits; the call
should have returned false and left `*out` as it was. -/
theorem AlignTo_stores_unaligned :
    (∀ out, AlignTo 8 1 300 out = (true, out.store 44)) ∧
    (∀ out, (AlignTo 8 1 300 out).2.writes = out.writes ++ [44]) ∧
    alignedValue 1 300 = 300 ∧ numeric_limits_max 8 < alignedValue 1 300 ∧
    ¬ 300 ∣ 44 ∧ 1 ≤ numeric_limits_max 8 ∧ 300 < 2 ^ 32 :=
  ⟨fun _ => rfl, fun _ => rfl, by decide, by decide, by decide, by decide, by decide⟩

/-- For a nonzero alignment the aligned value of the specification is the
least multiple of the alignment that is at least `base`. -/
theorem alignedValue_least (base alignment : Nat) (h0 : alignment ≠ 0) :
    alignment ∣ alignedValue base alignment ∧ base ≤ alignedValue base alignment ∧
    ∀ m, alignment ∣ m → base ≤ m → alignedValue base alignment ≤ m := by
  have hr : base % alignment < alignment := Nat.mod_lt _ (Nat.pos_of_ne_zero h0)
  have hd := Nat.div_add_mod base alignment
  unfold alignedValue
  rw [if_neg h0]
  by_cases hz : base % alignment = 0
  · rw [if_pos hz]
    exact ⟨Nat.dvd_of_mod_eq_zero hz, Nat.le_refl _, fun m _ hm => hm⟩
  · rw [if_neg hz]
    refine ⟨dvd_add_pad base alignment h0, by omega, ?_⟩
    rintro m ⟨k, rfl⟩ hm
    have hk : base / alignment + 1 ≤ k := by
      by_contra hlt
      have hle : k ≤ base / alignment := by omega
      have := Nat.mul_le_mul_left alignment hle
      omega
    have hmul := Nat.mul_le_mul_left alignment hk
    rw [Nat.mul_add, Nat.mul_one] at hmul
    omega

/-- When the alignment fits `T`, the call succeeds exactly when the aligned
value of the specification is representable in `T`. -/
theorem AlignTo_ok_iff (w base alignment : Nat) (out : OutCell)
    (hb : base < 2 ^ w) (ha : alignment < 2 ^ 32) (haw : alignment ≤ 2 ^ w) :
    (AlignTo w base alignment out).1 = true ↔
      alignedValue base alignment ≤ numeric_limits_max w := by
  rw [AlignTo_exact w base alignment out hb ha haw]
  unfold alignedValue numeric_limits_max
  by_cases h0 : alignment = 0
  · simp only [if_pos h0, true_iff]
    omega
  · by_cases hz : base % alignment = 0
    · simp only [if_neg h0, if_pos hz, true_iff]
      omega
    · by_cases hov : base + (alignment - base % alignment) > 2 ^ w - 1
      · simp only [if_neg h0, if_neg hz, if_pos hov]
        constructor
        · intro h
          exact absurd h Bool.false_ne_true
        · intro h
          omega
      · simp only [if_neg h0, if_neg hz, if_neg hov, true_iff]
        omega

/-- When the alignment fits `T`, a successful call leaves the aligned value of
the specification in `*out`. -/
theorem AlignTo_val_of_ok (w base alignment : Nat) (out : OutCell)
    (hb : base < 2 ^ w) (ha : alignment < 2 ^ 32) (haw : alignment ≤ 2 ^ w)
    (hok : (AlignTo w base alignment out).1 = true) :
    (AlignTo w base alignment out).2.val = alignedValue base alignment := by
  rw [AlignTo_exact_aligned w base alignment out hb ha haw hok]
  rfl

/-- C11: for the 32-bit and 64-bit instantiations and a nonzero alignment, a
successful call returns the least multiple of the alignment that is at least
`base`; a failing call means every multiple of the alignment at or above
`base` exceeds the maximum of `T`, so an input with a multiple of the alignment
in `[base, max(T)]` is never rejected. -/
theorem AlignTo_least_multiple (w base alignment : Nat) (out : OutCell)
    (hw : w = 32 ∨ w = 64) (hb : base < 2 ^ w) (ha : alignment < 2 ^ 32)
    (h0 : alignment ≠ 0) :
    ((AlignTo w base alignment out).1 = true →
      alignment ∣ (AlignTo w base alignment out).2.val ∧
      base ≤ (AlignTo w base alignment out).2.val ∧
      ∀ m, alignment ∣ m → base ≤ m → (AlignTo w base alignment out).2.val ≤ m) ∧
    ((AlignTo w base alignment out).1 = false →
      ∀ m, alignment ∣ m → base ≤ m → numeric_limits_max w < m) ∧
    ((∃ m, alignment ∣ m ∧ base ≤ m ∧ m ≤ numeric_limits_max w) →
      (AlignTo w base alignment out).1 = true) := by
  have haw := alignment_fits hw ha
  have hiff := AlignTo_ok_iff w base alignment out hb ha haw
  have hleast := alignedValue_least base alignment h0
  refine ⟨?_, ?_, ?_⟩
  · intro hok
    rw [AlignTo_val_of_ok w base alignment out hb ha haw hok]
    exact hleast
  · intro hfail m hdvd hm
    have hnot : ¬ alignedValue base alignment ≤ numeric_limits_max w := by
      intro h
      rw [hiff.mpr h] at hfail
      exact absurd hfail (by decide)
    have := hleast.2.2 m hdvd hm
    omega
  · rintro ⟨m, hdvd, hm, hmax⟩
    exact hiff.mpr (Nat.le_trans (hleast.2.2 m hdvd hm) hmax)

theorem AlignTo_least_multiple_witness :
    ((AlignTo 32 10 6 ⟨0, []⟩).1 = true →
      6 ∣ (AlignTo 32 10 6 ⟨0, []⟩).2.val ∧
      10 ≤ (AlignTo 32 10 6 ⟨0, []⟩).2.val ∧
      ∀ m, 6 ∣ m → 10 ≤ m → (AlignTo 32 10 6 ⟨0, []⟩).2.val ≤ m) ∧
    ((AlignTo 32 10 6 ⟨0, []⟩).1 = false →
      ∀ m, 6 ∣ m → 10 ≤ m → numeric_limits_max 32 < m) ∧
    ((∃ m, 6 ∣ m ∧ 10 ≤ m ∧ m ≤ numeric_limits_max 32) →
      (AlignTo 32 10 6 ⟨0, []⟩).1 = true) :=
  AlignTo_least_multiple 32 10 6 ⟨0, []⟩ (Or.inl rfl) (by decide) (by decide) (by decide)

/-- C12: for the 32-bit and 64-bit instantiations, when `AlignTo(base,
alignment)` succeeds with `r`, the call `AlignTo(r, alignment)` succeeds as
well and stores `r`. -/
theorem AlignTo_idempotent (w base alignment : Nat) (out out2 : OutCell)
    (hw : w = 32 ∨ w = 64) (hb : base < 2 ^ w) (ha : alignment < 2 ^ 32)
    (hok : (AlignTo w base alignment out).1 = true) :
    AlignTo w (AlignTo w base alignment out).2.val alignment out2
      = (true, out2.store (AlignTo w base alignment out).2.val) := by
  have haw := alignment_fits hw ha
  have hmax := (AlignTo_ok_iff w base alignment out hb ha haw).mp hok
  rw [AlignTo_val_of_ok w base alignment out hb ha haw hok]
  have hr : alignedValue base alignment < 2 ^ w := by
    unfold numeric_limits_max at hmax
    omega
  rw [AlignTo_exact w (alignedValue base alignment) alignment out2 hr ha haw]
  by_cases h0 : alignment = 0
  · rw [if_pos h0]
  · have hz : alignedValue base alignment % alignment = 0 :=
      Nat.mod_eq_zero_of_dvd (alignedValue_least base alignment h0).1
    rw [if_neg h0, if_pos hz]

theorem AlignTo_idempotent_witness :
    AlignTo 64 (AlignTo 64 4097 4096 ⟨0, []⟩).2.val 4096 ⟨5, [5]⟩
      = (true, OutCell.store ⟨5, [5]⟩ (AlignTo 64 4097 4096 ⟨0, []⟩).2.val) :=
  AlignTo_idempotent 64 4097 4096 ⟨0, []⟩ ⟨5, [5]⟩ (Or.inr rfl) (by decide) (by decide)
    (by decide)

/-- C13: for the 32-bit and 64-bit instantiations and a fixed alignment, when
`base1 <= base2` and `AlignTo` succeeds on `base2`, it succeeds on `base1` too
and the result for `base1` is at most the result for `base2`. -/
theorem AlignTo_monotone (w base1 base2 alignment : Nat) (out1 out2 : OutCell)
    (hw : w = 32 ∨ w = 64) (hb2 : base2 < 2 ^ w) (ha : alignment < 2 ^ 32)
    (hle : base1 ≤ base2) (hok : (AlignTo w base2 alignment out2).1 = true) :
    (AlignTo w base1 alignment out1).1 = true ∧
    (AlignTo w base1 alignment out1).2.val ≤ (AlignTo w base2 alignment out2).2.val := by
  have haw := alignment_fits hw ha
  have hb1 : base1 < 2 ^ w := Nat.lt_of_le_of_lt hle hb2
  have hmax2 := (AlignTo_ok_iff w base2 alignment out2 hb2 ha haw).mp hok
  have hmono : alignedValue base1 alignment ≤ alignedValue base2 alignment := by
    by_cases h0 : alignment = 0
    · unfold alignedValue
      rw [if_pos h0, if_pos h0]
      exact hle
    · have h2 := alignedValue_least base2 alignment h0
      exact (alignedValue_least base1 alignment h0).2.2 _ h2.1 (Nat.le_trans hle h2.2.1)
  have hok1 : (AlignTo w base1 alignment out1).1 = true :=
    (AlignTo_ok_iff w base1 alignment out1 hb1 ha haw).mpr (Nat.le_trans hmono hmax2)
  refine ⟨hok1, ?_⟩
  rw [AlignTo_val_of_ok w base1 alignment out1 hb1 ha haw hok1,
    AlignTo_val_of_ok w base2 alignment out2 hb2 ha haw hok]
  exact hmono

theorem AlignTo_monotone_witness :
    (AlignTo 32 7 6 ⟨0, []⟩).1 = true ∧
    (AlignTo 32 7 6 ⟨0, []⟩).2.val ≤ (AlignTo 32 13 6 ⟨1, [1]⟩).2.val :=
  AlignTo_monotone 32 7 13 6 ⟨0, []⟩ ⟨1, [1]⟩ (Or.inl rfl) (by decide) (by decide)
    (by decide) (by decide)

/-! ## Properties of the layout arithmetic -/

/-- C6: whenever `2 * GEOMETRY_BLOCK_SIZE + 2 * metadata_max_size * max_slots`
is representable, `GetTotalMetadataSize` returns exactly that value, with
`GEOMETRY_BLOCK_SIZE = 4096`; `GetTotalMetadataSize(65536, 2)` is 270336. -/
theorem GetTotalMetadataSize_eq (metadata_max_size max_slots : Nat)
    (hm : metadata_max_size < 2 ^ 32)
    (hrep : 2 * GEOMETRY_BLOCK_SIZE + 2 * metadata_max_size * max_slots ≤ UINT64_MAX) :
    GetTotalMetadataSize metadata_max_size max_slots
        = .ok (2 * GEOMETRY_BLOCK_SIZE + 2 * metadata_max_size * max_slots) ∧
      GEOMETRY_BLOCK_SIZE = 4096 ∧
      GetTotalMetadataSize 65536 2 = .ok 270336 := by
  refine ⟨?_, rfl, by decide⟩
  have h1 : 2 * GEOMETRY_BLOCK_SIZE ≤ UINT64_MAX := by decide
  have h2 : 2 * metadata_max_size ≤ UINT64_MAX := by
    have : UINT64_MAX = 18446744073709551615 := by decide
    omega
  have h3 : 2 * metadata_max_size * max_slots ≤ UINT64_MAX := by omega
  simp only [GetTotalMetadataSize, checked_mul, checked_add, bind, Except.bind, if_pos h1,
    if_pos h2, if_pos h3, if_pos hrep]

theorem GetTotalMetadataSize_eq_witness :
    GetTotalMetadataSize 4096 3 = .ok (2 * GEOMETRY_BLOCK_SIZE + 2 * 4096 * 3) :=
  (GetTotalMetadataSize_eq 4096 3 (by decide) (by decide)).1

theorem UINT64_MAX_eq : UINT64_MAX = 18446744073709551615 := by decide

theorem GEOMETRY_BLOCK_SIZE_eq : GEOMETRY_BLOCK_SIZE = 4096 := rfl

/-- A successful `GetTotalMetadataSize` returns the unbounded value of its
formula, and that value is representable. -/
theorem GetTotalMetadataSize_ok {metadata_max_size max_slots T : Nat}
    (h : GetTotalMetadataSize metadata_max_size max_slots = .ok T) :
    T = 2 * GEOMETRY_BLOCK_SIZE + 2 * metadata_max_size * max_slots ∧ T ≤ UINT64_MAX := by
  have h1 : 2 * GEOMETRY_BLOCK_SIZE ≤ UINT64_MAX := by decide
  by_cases h2 : 2 * metadata_max_size ≤ UINT64_MAX
  · by_cases h3 : 2 * metadata_max_size * max_slots ≤ UINT64_MAX
    · by_cases h4 : 2 * GEOMETRY_BLOCK_SIZE + 2 * metadata_max_size * max_slots ≤ UINT64_MAX
      · simp only [GetTotalMetadataSize, checked_mul, checked_add, bind, Except.bind, if_pos h1,
          if_pos h2, if_pos h3, if_pos h4] at h
        injection h with h
        exact ⟨h.symm, h ▸ h4⟩
      · simp [GetTotalMetadataSize, checked_mul, checked_add, bind, Except.bind, h1,
          h2, h3, h4] at h
    · simp [GetTotalMetadataSize, checked_mul, checked_add, bind, Except.bind, h1,
        h2, h3] at h
  · simp [GetTotalMetadataSize, checked_mul, checked_add, bind, Except.bind, h1, h2] at h

theorem validate_ok (geometry : LpMetadataGeometry)
    (hm : 0 < geometry.metadata_max_size) (hc : 0 < geometry.metadata_slot_count)
    (hp : geometry.metadata_slot_count * geometry.metadata_max_size ≤ UINT64_MAX) :
    geometry.validate = .ok (geometry.metadata_slot_count * geometry.metadata_max_size) := by
  unfold LpMetadataGeometry.validate
  rw [if_neg (by omega), if_pos hp]

theorem GetBackupGeometryOffset_ok (total_reserved_size : Nat)
    (h : GEOMETRY_BLOCK_SIZE ≤ total_reserved_size) :
    GetBackupGeometryOffset total_reserved_size
      = .ok (total_reserved_size - GEOMETRY_BLOCK_SIZE) := by
  unfold GetBackupGeometryOffset checked_sub
  rw [if_pos h]

theorem GetPrimaryMetadataOffset_ok (geometry : LpMetadataGeometry) (slot_number : Nat)
    (hm : 0 < geometry.metadata_max_size) (hc : 0 < geometry.metadata_slot_count)
    (hp : geometry.metadata_slot_count * geometry.metadata_max_size ≤ UINT64_MAX)
    (hs : slot_number < geometry.metadata_slot_count)
    (hfit : GEOMETRY_BLOCK_SIZE + slot_number * geometry.metadata_max_size ≤ UINT64_MAX) :
    GetPrimaryMetadataOffset geometry slot_number
      = .ok (GEOMETRY_BLOCK_SIZE + slot_number * geometry.metadata_max_size) := by
  have h1 : slot_number * geometry.metadata_max_size ≤ UINT64_MAX := by omega
  simp only [GetPrimaryMetadataOffset, validate_ok geometry hm hc hp, checked_mul, checked_add,
    bind, Except.bind, if_neg (Nat.not_le.mpr hs), if_pos h1, if_pos hfit, pure, Except.pure]

theorem GetBackupMetadataOffset_ok (geometry : LpMetadataGeometry)
    (total_reserved_size slot_number : Nat)
    (hm : 0 < geometry.metadata_max_size) (hc : 0 < geometry.metadata_slot_count)
    (hp : geometry.metadata_slot_count * geometry.metadata_max_size ≤ UINT64_MAX)
    (hs : slot_number < geometry.metadata_slot_count)
    (hroom : GEOMETRY_BLOCK_SIZE
      + geometry.metadata_slot_count * geometry.metadata_max_size ≤ total_reserved_size)
    (htot : total_reserved_size ≤ UINT64_MAX) :
    GetBackupMetadataOffset geometry total_reserved_size slot_number
      = .ok (total_reserved_size - GEOMETRY_BLOCK_SIZE
          - geometry.metadata_slot_count * geometry.metadata_max_size
          + slot_number * geometry.metadata_max_size) := by
  have hle : slot_number * geometry.metadata_max_size
      ≤ geometry.metadata_slot_count * geometry.metadata_max_size :=
    Nat.mul_le_mul_right _ (Nat.le_of_lt hs)
  have h1 : slot_number * geometry.metadata_max_size ≤ UINT64_MAX := by omega
  have h2 : geometry.metadata_slot_count * geometry.metadata_max_size
      ≤ total_reserved_size - GEOMETRY_BLOCK_SIZE := by omega
  have h3 : total_reserved_size - GEOMETRY_BLOCK_SIZE
      - geometry.metadata_slot_count * geometry.metadata_max_size
      + slot_number * geometry.metadata_max_size ≤ UINT64_MAX := by omega
  simp only [GetBackupMetadataOffset, validate_ok geometry hm hc hp,
    GetBackupGeometryOffset_ok total_reserved_size (by omega), checked_mul, checked_add,
    checked_sub, bind, Except.bind, if_neg (Nat.not_le.mpr hs), if_pos h1, if_pos h2, if_pos h3,
    pure, Except.pure]

theorem ByteRange.disjoint_of_before {a b : ByteRange} (h : a.before b) : a.disjoint b := by
  intro x hx
  unfold ByteRange.before at h
  omega

theorem ByteRange.before_trans {a b c : ByteRange} (hab : a.before b) (hbc : b.before c) :
    a.before c := by
  unfold ByteRange.before ByteRange.stop at *
  omega

/-- C7 (as stated, refuted): for `metadata_max_size = 65536`,
`metadata_slot_count = 2` and a reserved size of 270336 the backup slots do not
start at 134144 and 199680; they start at 135168 and 200704. -/
theorem GetBackupMetadataOffset_scenario_mismatch :
    GetBackupMetadataOffset ⟨65536, 2⟩ 270336 0 = .ok 135168 ∧
    GetBackupMetadataOffset ⟨65536, 2⟩ 270336 0 ≠ .ok 134144 ∧
    GetBackupMetadataOffset ⟨65536, 2⟩ 270336 1 = .ok 200704 ∧
    GetBackupMetadataOffset ⟨65536, 2⟩ 270336 1 ≠ .ok 199680 := by
  decide

/-- C7 (amended): for every valid geometry and every reserved size that is at
least `GetTotalMetadataSize`, the primary geometry, the primary slots, the
backup slots and the backup geometry lie in that order from left to right,
each ending no later than the next begins, pairwise disjoint and inside the
reserved region, every slot window inside its slot array; for
`metadata_max_size = 65536`, `metadata_slot_count = 2` and 270336 reserved
bytes the offsets are 0, 4096, 69632, 135168, 200704 and 266240. -/
theorem metadataRegions_ordered (geometry : LpMetadataGeometry)
    (total_reserved_size T : Nat)
    (hm : 0 < geometry.metadata_max_size) (hc : 0 < geometry.metadata_slot_count)
    (hp : geometry.metadata_slot_count * geometry.metadata_max_size ≤ UINT64_MAX)
    (hT : GetTotalMetadataSize geometry.metadata_max_size geometry.metadata_slot_count = .ok T)
    (hge : T ≤ total_reserved_size) (htot : total_reserved_size ≤ UINT64_MAX) :
    (∃ r, metadataRegions geometry total_reserved_size = .ok r ∧
      r.primary_geometry = ⟨GetPrimaryGeometryOffset, GEOMETRY_BLOCK_SIZE⟩ ∧
      GetBackupGeometryOffset total_reserved_size = .ok r.backup_geometry.start ∧
      r.backup_geometry.size = GEOMETRY_BLOCK_SIZE ∧
      r.primary_geometry.before r.primary_slots ∧
      r.primary_slots.before r.backup_slots ∧
      r.backup_slots.before r.backup_geometry ∧
      r.backup_geometry.stop ≤ total_reserved_size ∧
      r.primary_geometry.disjoint r.primary_slots ∧
      r.primary_geometry.disjoint r.backup_slots ∧
      r.primary_geometry.disjoint r.backup_geometry ∧
      r.primary_slots.disjoint r.backup_slots ∧
      r.primary_slots.disjoint r.backup_geometry ∧
      r.backup_slots.disjoint r.backup_geometry ∧
      (∀ slot_number, slot_number < geometry.metadata_slot_count →
        ∃ p b, GetPrimaryMetadataOffset geometry slot_number = .ok p ∧
          GetBackupMetadataOffset geometry total_reserved_size slot_number = .ok b ∧
          r.primary_slots.start ≤ p ∧ p + geometry.metadata_max_size ≤ r.primary_slots.stop ∧
          r.backup_slots.start ≤ b ∧ b + geometry.metadata_max_size ≤ r.backup_slots.stop)) ∧
    (GetPrimaryGeometryOffset = 0 ∧
      GetPrimaryMetadataOffset ⟨65536, 2⟩ 0 = .ok 4096 ∧
      GetPrimaryMetadataOffset ⟨65536, 2⟩ 1 = .ok 69632 ∧
      GetBackupMetadataOffset ⟨65536, 2⟩ 270336 0 = .ok 135168 ∧
      GetBackupMetadataOffset ⟨65536, 2⟩ 270336 1 = .ok 200704 ∧
      GetBackupGeometryOffset 270336 = .ok 266240) := by
  refine ⟨?_, by decide⟩
  obtain ⟨hTeq, hTle⟩ := GetTotalMetadataSize_ok hT
  have hG := GEOMETRY_BLOCK_SIZE_eq
  have hcomm : 2 * geometry.metadata_max_size * geometry.metadata_slot_count
      = 2 * (geometry.metadata_slot_count * geometry.metadata_max_size) := by
    rw [Nat.mul_assoc, Nat.mul_comm geometry.metadata_max_size]
  rw [hcomm] at hTeq
  have hv := validate_ok geometry hm hc hp
  have hp0 := GetPrimaryMetadataOffset_ok geometry 0 hm hc hp hc (by omega)
  have hb0 := GetBackupMetadataOffset_ok geometry total_reserved_size 0 hm hc hp hc
    (by omega) htot
  have hbg := GetBackupGeometryOffset_ok total_reserved_size (by omega)
  have hab : ByteRange.before ⟨GetPrimaryGeometryOffset, GEOMETRY_BLOCK_SIZE⟩
      ⟨GEOMETRY_BLOCK_SIZE + 0 * geometry.metadata_max_size,
        geometry.metadata_slot_count * geometry.metadata_max_size⟩ := by
    simp only [ByteRange.before, ByteRange.stop, GetPrimaryGeometryOffset]
    omega
  have hbc : ByteRange.before
      ⟨GEOMETRY_BLOCK_SIZE + 0 * geometry.metadata_max_size,
        geometry.metadata_slot_count * geometry.metadata_max_size⟩
      ⟨total_reserved_size - GEOMETRY_BLOCK_SIZE
          - geometry.metadata_slot_count * geometry.metadata_max_size
          + 0 * geometry.metadata_max_size,
        geometry.metadata_slot_count * geometry.metadata_max_size⟩ := by
    simp only [ByteRange.before, ByteRange.stop]
    omega
  have hcd : ByteRange.before
      ⟨total_reserved_size - GEOMETRY_BLOCK_SIZE
          - geometry.metadata_slot_count * geometry.metadata_max_size
          + 0 * geometry.metadata_max_size,
        geometry.metadata_slot_count * geometry.metadata_max_size⟩
      ⟨total_reserved_size - GEOMETRY_BLOCK_SIZE, GEOMETRY_BLOCK_SIZE⟩ := by
    simp only [ByteRange.before, ByteRange.stop]
    omega
  refine ⟨⟨⟨GetPrimaryGeometryOffset, GEOMETRY_BLOCK_SIZE⟩,
      ⟨GEOMETRY_BLOCK_SIZE + 0 * geometry.metadata_max_size,
        geometry.metadata_slot_count * geometry.metadata_max_size⟩,
      ⟨total_reserved_size - GEOMETRY_BLOCK_SIZE
          - geometry.metadata_slot_count * geometry.metadata_max_size
          + 0 * geometry.metadata_max_size,
        geometry.metadata_slot_count * geometry.metadata_max_size⟩,
      ⟨total_reserved_size - GEOMETRY_BLOCK_SIZE, GEOMETRY_BLOCK_SIZE⟩⟩,
    ?_, rfl, hbg, rfl, hab, hbc, hcd, ?_,
    ByteRange.disjoint_of_before hab,
    ByteRange.disjoint_of_before (ByteRange.before_trans hab hbc),
    ByteRange.disjoint_of_before (ByteRange.before_trans hab (ByteRange.before_trans hbc hcd)),
    ByteRange.disjoint_of_before hbc,
    ByteRange.disjoint_of_before (ByteRange.before_trans hbc hcd),
    ByteRange.disjoint_of_before hcd, ?_⟩
  · simp only [metadataRegions, hv, hp0, hb0, hbg, bind, Except.bind, pure, Except.pure]
  · simp only [ByteRange.stop]
    omega
  · intro slot_number hs
    have hle : slot_number * geometry.metadata_max_size + geometry.metadata_max_size
        ≤ geometry.metadata_slot_count * geometry.metadata_max_size := by
      have := Nat.mul_le_mul_right geometry.metadata_max_size (Nat.succ_le_of_lt hs)
      rw [Nat.succ_mul] at this
      exact this
    refine ⟨_, _, GetPrimaryMetadataOffset_ok geometry slot_number hm hc hp hs (by omega),
      GetBackupMetadataOffset_ok geometry total_reserved_size slot_number hm hc hp hs
        (by omega) htot, ?_⟩
    simp only [ByteRange.stop]
    omega

theorem metadataRegions_ordered_witness :
    ∃ r, metadataRegions ⟨65536, 2⟩ 300000 = .ok r ∧
      r.primary_geometry = ⟨GetPrimaryGeometryOffset, GEOMETRY_BLOCK_SIZE⟩ ∧
      GetBackupGeometryOffset 300000 = .ok r.backup_geometry.start ∧
      r.backup_geometry.size = GEOMETRY_BLOCK_SIZE ∧
      r.primary_geometry.before r.primary_slots ∧
      r.primary_slots.before r.backup_slots ∧
      r.backup_slots.before r.backup_geometry ∧
      r.backup_geometry.stop ≤ 300000 ∧
      r.primary_geometry.disjoint r.primary_slots ∧
      r.primary_geometry.disjoint r.backup_slots ∧
      r.primary_geometry.disjoint r.backup_geometry ∧
      r.primary_slots.disjoint r.backup_slots ∧
      r.primary_slots.disjoint r.backup_geometry ∧
      r.backup_slots.disjoint r.backup_geometry ∧
      (∀ slot_number, slot_number < 2 →
        ∃ p b, GetPrimaryMetadataOffset ⟨65536, 2⟩ slot_number = .ok p ∧
          GetBackupMetadataOffset ⟨65536, 2⟩ 300000 slot_number = .ok b ∧
          r.primary_slots.start ≤ p ∧ p + 65536 ≤ r.primary_slots.stop ∧
          r.backup_slots.start ≤ b ∧ b + 65536 ≤ r.backup_slots.stop) :=
  (metadataRegions_ordered ⟨65536, 2⟩ 300000 270336 (by decide) (by decide) (by decide)
    (by decide) (by decide) (by decide)).1

/-- C8: for every `total_reserved_size >= 2 * GEOMETRY_BLOCK_SIZE` the backup
geometry offset is `total_reserved_size - GEOMETRY_BLOCK_SIZE`: the backup
geometry block ends exactly at the end of the reserved region, so it is its
last `GEOMETRY_BLOCK_SIZE` bytes, and it begins no earlier than the primary
geometry block ends. -/
theorem GetBackupGeometryOffset_last_block (total_reserved_size : Nat)
    (h : 2 * GEOMETRY_BLOCK_SIZE ≤ total_reserved_size) :
    GetBackupGeometryOffset total_reserved_size
        = .ok (total_reserved_size - GEOMETRY_BLOCK_SIZE) ∧
      ByteRange.stop ⟨total_reserved_size - GEOMETRY_BLOCK_SIZE, GEOMETRY_BLOCK_SIZE⟩
        = total_reserved_size ∧
      ByteRange.before ⟨GetPrimaryGeometryOffset, GEOMETRY_BLOCK_SIZE⟩
        ⟨total_reserved_size - GEOMETRY_BLOCK_SIZE, GEOMETRY_BLOCK_SIZE⟩ := by
  refine ⟨GetBackupGeometryOffset_ok total_reserved_size (by omega), ?_, ?_⟩
  · simp only [ByteRange.stop]
    omega
  · simp only [ByteRange.before, ByteRange.stop, GetPrimaryGeometryOffset]
    omega

theorem GetBackupGeometryOffset_last_block_witness :
    GetBackupGeometryOffset 270336 = .ok (270336 - GEOMETRY_BLOCK_SIZE) ∧
      ByteRange.stop ⟨270336 - GEOMETRY_BLOCK_SIZE, GEOMETRY_BLOCK_SIZE⟩ = 270336 ∧
      ByteRange.before ⟨GetPrimaryGeometryOffset, GEOMETRY_BLOCK_SIZE⟩
        ⟨270336 - GEOMETRY_BLOCK_SIZE, GEOMETRY_BLOCK_SIZE⟩ :=
  GetBackupGeometryOffset_last_block 270336 (by decide)

/-! ## Properties of the header downgrade -/

/-- C9: `SetMetadataHeaderV0` is idempotent, and after one application the
header version is 1.0, every header flag bit still set is one version 1.0
defines, every extension field is zero, and every partition attribute bit
still set is one version 1.0 defines. -/
theorem SetMetadataHeaderV0_idempotent (masks : V0Masks) (m : LpMetadata) :
    SetMetadataHeaderV0 masks (SetMetadataHeaderV0 masks m) = SetMetadataHeaderV0 masks m ∧
    (SetMetadataHeaderV0 masks m).header.major_version = 1 ∧
    (SetMetadataHeaderV0 masks m).header.minor_version = 0 ∧
    (∀ i, (SetMetadataHeaderV0 masks m).header.flags.testBit i = true →
      masks.flags.testBit i = true) ∧
    (∀ x ∈ (SetMetadataHeaderV0 masks m).header.extension, x = 0) ∧
    (∀ p ∈ (SetMetadataHeaderV0 masks m).partitions, ∀ i,
      p.attributes.testBit i = true → masks.attributes.testBit i = true) := by
  refine ⟨?_, rfl, rfl, ?_, ?_, ?_⟩
  · simp only [SetMetadataHeaderV0, List.map_map, Function.comp_def, Nat.and_assoc,
      Nat.and_self]
  · intro i hi
    simp only [SetMetadataHeaderV0, Nat.testBit_and, Bool.and_eq_true] at hi
    exact hi.2
  · intro x hx
    simp only [SetMetadataHeaderV0, List.mem_map] at hx
    obtain ⟨_, _, rfl⟩ := hx
    rfl
  · intro p hp i hi
    simp only [SetMetadataHeaderV0, List.mem_map] at hp
    obtain ⟨q, _, rfl⟩ := hp
    simp only [Nat.testBit_and, Bool.and_eq_true] at hi
    exact hi.2

end android.fs_mgr
